import Mathlib

/-!
Shallow embedding of `actstream/gfk.py` (django-activity-stream).

The file under verification defines `GFKQuerySet`, a Django `QuerySet`
subclass with

  * `_clone`                  — carries the `_batches` set to the clone;
  * `_create_batch`           — builds a `Batch` from a string or a ready
                                batch and validates the named relation;
  * `batch_select`            — attaches batch specifications (set union);
  * `iterator`                — applies the batch collection fetcher to the
                                materialized results, one spec at a time;
  * `fetch_generic_relations` — bulk-resolves generic foreign keys: a first
                                pass groups rows by (content-type id,
                                smart_unicode(fk)) into `ct_map`, one
                                secondary fetch per truthy content-type id
                                fills `data_map`, and a second pass attaches
                                `data_map[(ct_id, smart_unicode(fk))]` to
                                each row whose fk value is not None.

Rows, content types and target objects are modelled concretely: a target
object is identified by its content-type id and (string) primary key, which
matches the text-primary-key use case the file advertises.  Python dicts are
modelled as association lists with the Python insertion-order/overwrite
semantics; a dict lookup that can raise `KeyError` is modelled in `Except`.
Secondary fetches are instrumented: the result records, per issued fetch,
the content-type id and the list of primary keys requested.
-/

set_option maxHeartbeats 1000000

namespace ActStream

/-- Python dict lookup `d[key]` as an `Option`: first entry with the key. -/
def dget? {α β : Type} [DecidableEq α] : List (α × β) → α → Option β
  | [], _ => none
  | (k, v) :: rest, key => if key = k then some v else dget? rest key

/-- Python dict assignment `d[key] = val`: update the first entry holding
the key in place, otherwise append a new entry (insertion order). -/
def dinsert {α β : Type} [DecidableEq α] : List (α × β) → α → β → List (α × β)
  | [], key, val => [(key, val)]
  | (k, v) :: rest, key, val =>
    if key = k then (key, val) :: rest else (k, v) :: dinsert rest key val

/-- `django.utils.encoding.smart_unicode`, restricted to what `gfk.py` feeds
it: a possibly-`None` primary-key value.  `smart_unicode(None)` in Python 2
is the string `u"None"`. -/
def smart_unicode : Option String → String
  | none => "None"
  | some s => s

/-- A target object of a generic foreign key, identified by its content-type
id and its (string) primary key — the identity Django model instances carry
for the purposes of `data_map`. -/
structure Obj where
  ct : Nat
  pk : String
deriving DecidableEq, Repr

/-- The two stored columns of one generic-foreign-key field on a row:
the content-type id (`gfk.ct_field` column) and the target id
(`gfk.fk_field`), each possibly NULL. -/
structure GfkVal where
  ct : Option Nat
  fk : Option String
deriving DecidableEq, Repr

/-- A materialized row of the primary result set: its primary key, the
stored (ct, fk) pair for each generic-foreign-key field, the transient
resolved-target slots written by `setattr(item, gfk.name, ...)`, and the
collections attached by the batch fetcher. -/
structure Row where
  pk : Nat
  gfks : List (String × GfkVal)
  resolved : List (String × Obj) := []
  attrs : List (String × List Obj) := []
deriving DecidableEq, Repr

/-- `getattr` of the two stored columns of a gfk field on a row. -/
def Row.val (r : Row) (g : String) : GfkVal :=
  (dget? r.gfks g).getD ⟨none, none⟩

/-- Inner dict of `ct_map`: `smart_unicode(fk)` ↦ `(gfk.name, item.pk)`. -/
abbrev CtInner := List (String × (String × Nat))

/-- `ct_map`: content-type id value (possibly NULL) ↦ inner dict. -/
abbrev CtMap := List (Option Nat × CtInner)

/-- `data_map`: `(ct_id, o.pk)` ↦ resolved object. -/
abbrev DataMap := List ((Option Nat × String) × Obj)

/-- The database of gfk targets: content-type id ↦ primary keys of the
existing rows of that model.  A content-type id with no entry is not a
registered `ContentType` (so `ctypes[ct_id]` would raise `KeyError`). -/
abbrev DB := List (Nat × List String)

/-- One instrumented secondary fetch: the content-type id it was issued for
and the primary keys requested (`pk__in=items_.keys()`). -/
abbrev Fetch := Nat × List String

/-- Python truthiness of a content-type id value (line `if ct_id:`):
NULL and 0 are falsy. -/
def truthy : Option Nat → Bool
  | none => false
  | some c => c ≠ 0

/-- The (item, gfk-field) pairs visited by the two `for item in qs: for gfk
in gfk_fields:` loops, in visit order. -/
def gfkPairs (flds : List String) : List Row → List (Row × String)
  | [] => []
  | r :: rest => flds.map (fun g => (r, g)) ++ gfkPairs flds rest

/-- One step of the first pass:
`ct_map.setdefault(ct_val, {})[smart_unicode(fk_val)] = (gfk.name, item.pk)`. -/
def ctMapStep (m : CtMap) (p : Row × String) : CtMap :=
  let v := p.1.val p.2
  let inner := (dget? m v.ct).getD []
  dinsert m v.ct (dinsert inner (smart_unicode v.fk) (p.2, p.1.pk))

/-- The first pass of `fetch_generic_relations` (lines 93–100): build
`ct_map` over all rows and gfk fields. -/
def buildCtMap (flds : List String) (rows : List Row) : CtMap :=
  (gfkPairs flds rows).foldl ctMapStep []

/-- The `KeyError`s the resolver can raise: `ctypes[ct_id]` on an
unregistered content type, and `data_map[(ct_id, smart_unicode(fk))]` on a
dangling reference. -/
inductive FetchErr where
  | ctKeyError (ct : Nat)
  | dataKeyError (ct : Option Nat) (pkStr : String)
deriving DecidableEq, Repr

/-- Lines 102–114: resolve content types in bulk and, for each truthy
content-type id of `ct_map`, issue one secondary fetch
`filter(pk__in=items_.keys())`, recording each found object in `data_map`.
Returns `data_map` together with the list of issued fetches. -/
def runFetches (db : DB) : CtMap → Except FetchErr (DataMap × List Fetch)
  | [] => Except.ok ([], [])
  | (none, _) :: rest => runFetches db rest
  | (some c, inner) :: rest =>
    if c = 0 then runFetches db rest
    else
      match dget? db c with
      | none => Except.error (FetchErr.ctKeyError c)
      | some pks =>
        let keys := inner.map Prod.fst
        let found := pks.filter (fun p => keys.contains p)
        match runFetches db rest with
        | Except.error e => Except.error e
        | Except.ok (dm, fs) =>
          Except.ok (found.map (fun p => ((some c, p), Obj.mk c p)) ++ dm,
                     (c, keys) :: fs)

/-- The second pass (lines 116–125) on one row: for each gfk field whose fk
value is not None, `setattr(item, gfk.name,
data_map[(ct_val, smart_unicode(fk_val))])`; a missing key raises
`KeyError`. -/
def spliceRow (dm : DataMap) : List String → Row → Except FetchErr Row
  | [], r => Except.ok r
  | g :: gs, r =>
    match (r.val g).fk with
    | none => spliceRow dm gs r
    | some v =>
      match dget? dm ((r.val g).ct, smart_unicode (some v)) with
      | none => Except.error (FetchErr.dataKeyError (r.val g).ct v)
      | some o => spliceRow dm gs { r with resolved := dinsert r.resolved g o }

/-- The second pass over all rows. -/
def spliceRows (dm : DataMap) (flds : List String) : List Row → Except FetchErr (List Row)
  | [] => Except.ok []
  | r :: rest =>
    match spliceRow dm flds r with
    | Except.error e => Except.error e
    | Except.ok r2 =>
      match spliceRows dm flds rest with
      | Except.error e => Except.error e
      | Except.ok rest2 => Except.ok (r2 :: rest2)

/-- The value `fetch_generic_relations` produces: the (now enriched) rows of
the returned clone, the instrumented secondary fetches, and whether the
native `prefetch_related` facility was delegated to. -/
structure FetchResult where
  rows : List Row
  fetches : List Fetch
  usedPf : Bool
deriving DecidableEq, Repr

/-- `GFKQuerySet.fetch_generic_relations` on an already-materialized row
set (lines 79–127).  `fetchRelations` is the `FETCH_RELATIONS` setting,
`prefetchEnabled` the `USE_PREFETCH` setting, `gfkFields` the
`GenericForeignKey` virtual fields of the model, `args` the optional field
name restriction. -/
def fetch_core (fetchRelations prefetchEnabled : Bool) (db : DB)
    (gfkFields : List String) (args : List String) (rows : List Row) :
    Except FetchErr FetchResult :=
  if !fetchRelations then Except.ok ⟨rows, [], false⟩
  else
    let flds := if args.isEmpty then gfkFields
                else gfkFields.filter (fun g => args.contains g)
    if prefetchEnabled then Except.ok ⟨rows, [], true⟩
    else
      match runFetches db (buildCtMap flds rows) with
      | Except.error e => Except.error e
      | Except.ok (dm, fs) =>
        match spliceRows dm flds rows with
        | Except.error e => Except.error e
        | Except.ok rows2 => Except.ok ⟨rows2, fs, false⟩

/-- Modelled from the spec: the `Batch` value of the external `batch_select`
library (only imported by `gfk.py`).  Per the spec, a batch specification
"identifies a relation name on the Row type, an optional renamed target
attribute", and "specification identity for merge purposes is by value
(relation name + target attribute)"; replay/ordering directives are not
modelled. -/
structure Batch where
  m2m_fieldname : String
  target_field_name : String
deriving DecidableEq, Repr

/-- Modelled from the spec: `Batch(name)` built from a bare string,
"defaulting its target attribute name". -/
def Batch.ofName (s : String) : Batch := ⟨s, s⟩

/-- The model metadata `gfk.py` consults: the relation names
`_check_field_exists` validates against, and the names of the
`GenericForeignKey` virtual fields. -/
structure ModelMeta where
  relFields : List String
  gfkFields : List String
deriving DecidableEq, Repr

/-- Modelled from the spec: the configuration error `_check_field_exists`
raises, "naming the offending field". -/
inductive ConfigErr where
  | fieldDoesNotExist (field : String)
deriving DecidableEq, Repr

/-- Modelled from the spec: `_check_field_exists(model, fieldname)` from the
external `batch_select` library — "validates that each named relation
actually exists on the row type; fails with a configuration error naming
the offending field if not". -/
def _check_field_exists (m : ModelMeta) (f : String) : Except ConfigErr Unit :=
  if f ∈ m.relFields then Except.ok () else Except.error (ConfigErr.fieldDoesNotExist f)

/-- A positional argument to `batch_select`: a ready `Batch` or a string
naming the relation. -/
inductive BatchOrStr where
  | batch (b : Batch)
  | str (s : String)
deriving DecidableEq, Repr

/-- The queryset state the claims are about: the model metadata, the
materialized rows, the attached `_batches`, and whether this is the
`EmptyGFKQuerySet` subclass. -/
structure GFKQuerySet where
  model : ModelMeta
  rows : List Row
  batches : List Batch := []
  empty : Bool := false
deriving DecidableEq, Repr

/-- `set.add`-style insertion: `_batches` is a Python set of `Batch`
values, so an already-present value is not added again. -/
def setInsert {α : Type} [DecidableEq α] (l : List α) (a : α) : List α :=
  if a ∈ l then l else l ++ [a]

/-- Set union `s | t` on the list model of Python sets. -/
def setUnion {α : Type} [DecidableEq α] (l1 l2 : List α) : List α :=
  l2.foldl setInsert l1

/-- `GFKQuerySet._clone` (lines 39–44): the superclass clone drops
`_batches`; it is copied over (as a fresh set) only when non-empty. -/
def GFKQuerySet._clone (qs : GFKQuerySet) : GFKQuerySet :=
  let query := { qs with batches := [] }
  if qs.batches.isEmpty then query else { query with batches := qs.batches }

/-- `GFKQuerySet._create_batch` (lines 46–54): coerce a string to a
`Batch`, override the target attribute when given, validate the relation
name against the model. -/
def GFKQuerySet._create_batch (qs : GFKQuerySet) (b : BatchOrStr)
    (target : Option String) : Except ConfigErr Batch :=
  let batch := match b with
    | BatchOrStr.batch b => b
    | BatchOrStr.str s => Batch.ofName s
  let batch := match target with
    | some t => { batch with target_field_name := t }
    | none => batch
  match _check_field_exists qs.model batch.m2m_fieldname with
  | Except.error e => Except.error e
  | Except.ok _ => Except.ok batch

/-- The generator expression `set(self._create_batch(batch) for batch in
batches)`: create each positional batch in turn, propagating the first
validation error. -/
def createBatches (qs : GFKQuerySet) : List BatchOrStr → Except ConfigErr (List Batch)
  | [] => Except.ok []
  | b :: rest =>
    match qs._create_batch b none with
    | Except.error e => Except.error e
    | Except.ok batch =>
      match createBatches qs rest with
      | Except.error e => Except.error e
      | Except.ok batches => Except.ok (batch :: batches)

/-- The generator expression over `named_batches.items()`: create each
named batch with its target attribute name. -/
def createNamedBatches (qs : GFKQuerySet) :
    List (String × BatchOrStr) → Except ConfigErr (List Batch)
  | [] => Except.ok []
  | p :: rest =>
    match qs._create_batch p.2 (some p.1) with
    | Except.error e => Except.error e
    | Except.ok batch =>
      match createNamedBatches qs rest with
      | Except.error e => Except.error e
      | Except.ok batches => Except.ok (batch :: batches)

/-- `GFKQuerySet.batch_select` (lines 56–64): create the positional and
named batches (validation can raise), union them with the previously
attached set, and return a clone carrying the union. -/
def GFKQuerySet.batch_select (qs : GFKQuerySet) (pos : List BatchOrStr)
    (named : List (String × BatchOrStr)) : Except ConfigErr GFKQuerySet :=
  match createBatches qs pos with
  | Except.error e => Except.error e
  | Except.ok bs =>
    match createNamedBatches qs named with
    | Except.error e => Except.error e
    | Except.ok nbs =>
      let batches := setUnion (setUnion qs.batches bs) nbs
      let query := qs._clone
      Except.ok { query with batches := batches }

/-- The link database backing the batch collection fetcher: relation name ↦
link records (owner row pk, related object). -/
abbrev LinkDB := List (String × List (Nat × Obj))

/-- Modelled from the spec: the module-level `batch_select` collection
fetcher of the external `batch_select` library (spec §4.3) — one secondary
fetch for the relation over all owner keys, then "for each row, attach the
grouped related items under the target attribute name of the specification; rows
with no matching links get an empty grouping". -/
def batch_select_fn (db : LinkDB) (target m2m : String) (rows : List Row) : List Row :=
  let links := (dget? db m2m).getD []
  rows.map (fun r =>
    let grouped := (links.filter (fun l => l.1 = r.pk)).map Prod.snd
    { r with attrs := dinsert r.attrs target grouped })

/-- `GFKQuerySet.iterator` (lines 66–77): with no `_batches` the underlying
iterator is passed through; otherwise the results are materialized once and
each batch specification is applied in turn, the output of one feeding the
next. -/
def GFKQuerySet.iterator (qs : GFKQuerySet) (db : LinkDB) : List Row :=
  if qs.batches.isEmpty then qs.rows
  else qs.batches.foldl
    (fun results b => batch_select_fn db b.target_field_name b.m2m_fieldname results)
    qs.rows

/-- `fetch_generic_relations` at the queryset level, including the subclass
dispatch: `EmptyGFKQuerySet.fetch_generic_relations` (lines 133–135)
returns `self` with no work done; otherwise the receiver is cloned and the
materialized rows of the clone are resolved by `fetch_core`. -/
def GFKQuerySet.fetch_generic_relations (qs : GFKQuerySet)
    (fetchRelations prefetchEnabled : Bool) (db : DB) (args : List String) :
    Except FetchErr (GFKQuerySet × List Fetch) :=
  if qs.empty then Except.ok (qs, [])
  else
    let q := qs._clone
    match fetch_core fetchRelations prefetchEnabled db qs.model.gfkFields args q.rows with
    | Except.error e => Except.error e
    | Except.ok res => Except.ok ({ q with rows := res.rows }, res.fetches)

/-! ### Dictionary lemmas -/

theorem dget?_dinsert {α β : Type} [DecidableEq α] (d : List (α × β)) (k : α) (v : β)
    (key : α) :
    dget? (dinsert d k v) key = if key = k then some v else dget? d key := by
  induction d with
  | nil => simp [dinsert, dget?]
  | cons hd tl ih =>
    obtain ⟨k2, v2⟩ := hd
    simp only [dinsert]
    by_cases h1 : k = k2
    · subst h1
      by_cases h2 : key = k <;> simp [dget?, h2]
    · by_cases h2 : key = k2
      · subst h2
        have h3 : ¬ key = k := fun h => h1 h.symm
        simp [dget?, h1, h3]
      · simp [dget?, h1, h2, ih]

theorem mem_keys_dinsert {α β : Type} [DecidableEq α] (d : List (α × β)) (k : α) (v : β)
    (a : α) :
    a ∈ (dinsert d k v).map Prod.fst ↔ a = k ∨ a ∈ d.map Prod.fst := by
  induction d with
  | nil => simp [dinsert]
  | cons hd tl ih =>
    obtain ⟨k2, v2⟩ := hd
    simp only [dinsert]
    by_cases h1 : k = k2
    · subst h1
      simp
    · simp [h1, ih]
      tauto

theorem nodup_keys_dinsert {α β : Type} [DecidableEq α] (d : List (α × β)) (k : α) (v : β)
    (h : (d.map Prod.fst).Nodup) : ((dinsert d k v).map Prod.fst).Nodup := by
  induction d with
  | nil => simp [dinsert]
  | cons hd tl ih =>
    obtain ⟨k2, v2⟩ := hd
    simp only [List.map_cons, List.nodup_cons] at h
    simp only [dinsert]
    by_cases h1 : k = k2
    · subst h1
      simp [h.1, h.2]
    · simp only [if_neg h1, List.map_cons, List.nodup_cons]
      refine ⟨?_, ih h.2⟩
      rw [mem_keys_dinsert]
      rintro (h2 | h2)
      · exact h1 h2.symm
      · exact h.1 h2

theorem mem_dinsert {α β : Type} [DecidableEq α] (d : List (α × β)) (k : α) (v : β)
    (e : α × β) : e ∈ dinsert d k v → e = (k, v) ∨ e ∈ d := by
  induction d with
  | nil =>
    intro h
    simpa [dinsert] using h
  | cons hd tl ih =>
    obtain ⟨k2, v2⟩ := hd
    intro h
    simp only [dinsert] at h
    by_cases h1 : k = k2
    · subst h1
      rw [if_pos rfl] at h
      rcases List.mem_cons.mp h with h2 | h2
      · exact Or.inl h2
      · exact Or.inr (List.mem_cons_of_mem _ h2)
    · rw [if_neg h1] at h
      rcases List.mem_cons.mp h with h2 | h2
      · exact Or.inr (h2 ▸ List.mem_cons_self _ _)
      · rcases ih h2 with h3 | h3
        · exact Or.inl h3
        · exact Or.inr (List.mem_cons_of_mem _ h3)

theorem dget?_mem {α β : Type} [DecidableEq α] (d : List (α × β)) (k : α) (v : β)
    (h : dget? d k = some v) : (k, v) ∈ d := by
  induction d with
  | nil => simp [dget?] at h
  | cons hd tl ih =>
    obtain ⟨k2, v2⟩ := hd
    simp only [dget?] at h
    by_cases h1 : k = k2
    · subst h1
      simp at h
      simp [h]
    · simp [h1] at h
      exact List.mem_cons_of_mem _ (ih h)

theorem dget?_isSome_iff {α β : Type} [DecidableEq α] (d : List (α × β)) (k : α) :
    (dget? d k).isSome ↔ k ∈ d.map Prod.fst := by
  induction d with
  | nil => simp [dget?]
  | cons hd tl ih =>
    obtain ⟨k2, v2⟩ := hd
    simp only [dget?]
    by_cases h1 : k = k2
    · subst h1
      simp
    · simp [h1, ih]

/-! ### Python-set lemmas (for `_batches`) -/

theorem mem_setInsert {α : Type} [DecidableEq α] (l : List α) (b a : α) :
    a ∈ setInsert l b ↔ a = b ∨ a ∈ l := by
  unfold setInsert
  by_cases h : b ∈ l
  · simp [h]
    intro h2
    subst h2
    exact h
  · simp [h]
    tauto

theorem setInsert_eq_self {α : Type} [DecidableEq α] (l : List α) (b : α) (h : b ∈ l) :
    setInsert l b = l := by
  simp [setInsert, h]

theorem mem_setUnion {α : Type} [DecidableEq α] (l1 l2 : List α) (a : α) :
    a ∈ setUnion l1 l2 ↔ a ∈ l1 ∨ a ∈ l2 := by
  induction l2 generalizing l1 with
  | nil => simp [setUnion]
  | cons hd tl ih =>
    show a ∈ setUnion (setInsert l1 hd) tl ↔ _
    rw [ih, mem_setInsert]
    simp
    tauto

/-! ### First-pass (`ct_map`) lemmas -/

theorem mem_gfkPairs (flds : List String) (rows : List Row) (r : Row) (g : String) :
    (r, g) ∈ gfkPairs flds rows ↔ r ∈ rows ∧ g ∈ flds := by
  induction rows with
  | nil => simp [gfkPairs]
  | cons hd tl ih =>
    simp only [gfkPairs, List.mem_append, List.mem_map, List.mem_cons, ih]
    constructor
    · rintro (⟨g2, hg2, heq⟩ | ⟨h1, h2⟩)
      · obtain ⟨h1, h2⟩ := Prod.mk.injEq .. ▸ heq
        exact ⟨Or.inl h1.symm, h2 ▸ hg2⟩
      · exact ⟨Or.inr h1, h2⟩
    · rintro ⟨h1 | h1, h2⟩
      · exact Or.inl ⟨g, h2, by rw [h1]⟩
      · exact Or.inr ⟨h1, h2⟩

theorem keys_ctMapStep_mem (m : CtMap) (p : Row × String) (o : Option Nat) :
    o ∈ (ctMapStep m p).map Prod.fst ↔ o = (p.1.val p.2).ct ∨ o ∈ m.map Prod.fst := by
  simp only [ctMapStep]
  exact mem_keys_dinsert m _ _ o

theorem keys_foldl_mem (ps : List (Row × String)) (m : CtMap) (o : Option Nat) :
    o ∈ ((ps.foldl ctMapStep m).map Prod.fst) ↔
      o ∈ m.map Prod.fst ∨ ∃ p ∈ ps, o = (p.1.val p.2).ct := by
  induction ps generalizing m with
  | nil => simp
  | cons hd tl ih =>
    rw [List.foldl_cons, ih, keys_ctMapStep_mem]
    simp only [List.mem_cons]
    constructor
    · rintro ((h | h) | ⟨p, hp, h⟩)
      · exact Or.inr ⟨hd, Or.inl rfl, h⟩
      · exact Or.inl h
      · exact Or.inr ⟨p, Or.inr hp, h⟩
    · rintro (h | ⟨p, hp | hp, h⟩)
      · exact Or.inl (Or.inr h)
      · exact Or.inl (Or.inl (hp ▸ h))
      · exact Or.inr ⟨p, hp, h⟩

theorem keys_foldl_nodup (ps : List (Row × String)) (m : CtMap)
    (h : (m.map Prod.fst).Nodup) : ((ps.foldl ctMapStep m).map Prod.fst).Nodup := by
  induction ps generalizing m with
  | nil => simpa using h
  | cons hd tl ih =>
    rw [List.foldl_cons]
    apply ih
    simp only [ctMapStep]
    exact nodup_keys_dinsert m _ _ h

theorem inner_nodup_foldl (ps : List (Row × String)) (m : CtMap)
    (h : ∀ e ∈ m, (e.2.map Prod.fst).Nodup) :
    ∀ e ∈ ps.foldl ctMapStep m, (e.2.map Prod.fst).Nodup := by
  induction ps generalizing m with
  | nil => simpa using h
  | cons hd tl ih =>
    rw [List.foldl_cons]
    apply ih
    intro e he
    simp only [ctMapStep] at he
    rcases mem_dinsert _ _ _ _ he with h2 | h2
    · subst h2
      apply nodup_keys_dinsert
      cases hdg : dget? m (hd.1.val hd.2).ct with
      | none => simp
      | some inner =>
        have := h _ (dget?_mem _ _ _ hdg)
        simpa [hdg] using this
    · exact h e h2

theorem inner_mono (ps : List (Row × String)) (m : CtMap) (c : Option Nat) (s : String)
    (h : ∃ inner, dget? m c = some inner ∧ s ∈ inner.map Prod.fst) :
    ∃ inner, dget? (ps.foldl ctMapStep m) c = some inner ∧ s ∈ inner.map Prod.fst := by
  induction ps generalizing m with
  | nil => simpa using h
  | cons hd tl ih =>
    rw [List.foldl_cons]
    apply ih
    obtain ⟨inner, hg, hs⟩ := h
    simp only [ctMapStep]
    rw [dget?_dinsert]
    by_cases hc : c = (hd.1.val hd.2).ct
    · rw [if_pos hc, ← hc, hg]
      refine ⟨_, rfl, ?_⟩
      rw [mem_keys_dinsert]
      exact Or.inr (by simpa using hs)
    · rw [if_neg hc]
      exact ⟨inner, hg, hs⟩

theorem inner_of_pair (ps : List (Row × String)) (m : CtMap) (r : Row) (g : String)
    (hmem : (r, g) ∈ ps) :
    ∃ inner, dget? (ps.foldl ctMapStep m) ((r.val g).ct) = some inner ∧
      smart_unicode (r.val g).fk ∈ inner.map Prod.fst := by
  induction ps generalizing m with
  | nil => cases hmem
  | cons hd tl ih =>
    rw [List.foldl_cons]
    rcases List.mem_cons.mp hmem with h1 | h1
    · apply inner_mono
      rw [← h1]
      simp only [ctMapStep]
      rw [dget?_dinsert, if_pos rfl]
      refine ⟨_, rfl, ?_⟩
      rw [mem_keys_dinsert]
      exact Or.inl rfl
    · exact ih _ h1

/-! ### Secondary-fetch (`runFetches`) lemmas -/

/-- The fetch an entry of `ct_map` gives rise to: one per truthy
content-type id, requesting exactly the keys of the inner dict. -/
def fetchOf : Option Nat × CtInner → Option Fetch
  | (none, _) => none
  | (some c, inner) => if c = 0 then none else some (c, inner.map Prod.fst)

theorem runFetches_fetches (db : DB) :
    ∀ (cm : CtMap) (dm : DataMap) (fs : List Fetch),
      runFetches db cm = Except.ok (dm, fs) → fs = cm.filterMap fetchOf := by
  intro cm
  induction cm with
  | nil =>
    intro dm fs h
    simp only [runFetches, Except.ok.injEq, Prod.mk.injEq] at h
    simp [← h.2]
  | cons hd tl ih =>
    obtain ⟨co, inner⟩ := hd
    intro dm fs h
    match co with
    | none =>
      simp only [runFetches] at h
      simp only [List.filterMap_cons, fetchOf]
      exact ih _ _ h
    | some c =>
      by_cases hc : c = 0
      · subst hc
        simp only [runFetches, if_pos rfl] at h
        simpa [List.filterMap_cons, fetchOf] using ih _ _ h
      · simp only [runFetches, if_neg hc] at h
        cases hdb : dget? db c with
        | none => rw [hdb] at h; cases h
        | some pks =>
          rw [hdb] at h
          cases hrest : runFetches db tl with
          | error e => rw [hrest] at h; cases h
          | ok out =>
            obtain ⟨dm2, fs2⟩ := out
            rw [hrest] at h
            simp only [Except.ok.injEq, Prod.mk.injEq] at h
            rw [← h.2, List.filterMap_cons]
            simp only [fetchOf, if_neg hc]
            rw [ih _ _ hrest]

theorem runFetches_ok (db : DB) :
    ∀ cm : CtMap, (∀ e ∈ cm, truthy e.1 → (dget? db (e.1.getD 0)).isSome) →
      ∃ dmfs, runFetches db cm = Except.ok dmfs := by
  intro cm
  induction cm with
  | nil => exact fun _ => ⟨([], []), rfl⟩
  | cons hd tl ih =>
    obtain ⟨co, inner⟩ := hd
    intro h
    have htl : ∀ e ∈ tl, truthy e.1 → (dget? db (e.1.getD 0)).isSome :=
      fun e he => h e (List.mem_cons_of_mem _ he)
    obtain ⟨⟨dm2, fs2⟩, hrest⟩ := ih htl
    match co with
    | none => exact ⟨_, by simpa [runFetches] using hrest⟩
    | some c =>
      by_cases hc : c = 0
      · subst hc
        exact ⟨_, by simpa [runFetches] using hrest⟩
      · have hdb : (dget? db c).isSome := by
          have := h (some c, inner) (List.mem_cons_self _ _) (by simp [truthy, hc])
          simpa using this
        cases hdbe : dget? db c with
        | none => rw [hdbe] at hdb; cases hdb
        | some pks =>
          refine ⟨((pks.filter (fun p => (inner.map Prod.fst).contains p)).map
              (fun p => ((some c, p), Obj.mk c p)) ++ dm2,
              (c, inner.map Prod.fst) :: fs2), ?_⟩
          simp only [runFetches, if_neg hc, hdbe, hrest]

theorem runFetches_dm_mem (db : DB) :
    ∀ (cm : CtMap) (dm : DataMap) (fs : List Fetch),
      runFetches db cm = Except.ok (dm, fs) →
      ∀ e ∈ dm, ∃ c pks, e.1.1 = some c ∧ dget? db c = some pks ∧ e.1.2 ∈ pks := by
  intro cm
  induction cm with
  | nil =>
    intro dm fs h e he
    simp only [runFetches, Except.ok.injEq, Prod.mk.injEq] at h
    rw [← h.1] at he
    cases he
  | cons hd tl ih =>
    obtain ⟨co, inner⟩ := hd
    intro dm fs h e he
    match co with
    | none =>
      simp only [runFetches] at h
      exact ih _ _ h e he
    | some c =>
      by_cases hc : c = 0
      · simp only [runFetches, if_pos hc] at h
        exact ih _ _ h e he
      · simp only [runFetches, if_neg hc] at h
        cases hdb : dget? db c with
        | none => rw [hdb] at h; cases h
        | some pks =>
          rw [hdb] at h
          cases hrest : runFetches db tl with
          | error e2 => rw [hrest] at h; cases h
          | ok out =>
            obtain ⟨dm2, fs2⟩ := out
            rw [hrest] at h
            simp only [Except.ok.injEq, Prod.mk.injEq] at h
            rw [← h.1] at he
            rcases List.mem_append.mp he with h2 | h2
            · obtain ⟨p, hp, hpe⟩ := List.mem_map.mp h2
              refine ⟨c, pks, ?_, hdb, ?_⟩
              · rw [← hpe]
              · rw [← hpe]
                simpa using List.mem_of_mem_filter hp
            · exact ih _ _ hrest e h2

theorem runFetches_key_mem (db : DB) :
    ∀ (cm : CtMap) (dm : DataMap) (fs : List Fetch),
      runFetches db cm = Except.ok (dm, fs) →
      ∀ c ∈ fs.map Prod.fst, (some c) ∈ cm.map Prod.fst := by
  intro cm dm fs h c hc
  rw [runFetches_fetches db cm dm fs h] at hc
  obtain ⟨f, hf, hcf⟩ := List.mem_map.mp hc
  obtain ⟨e, he, hfe⟩ := List.mem_filterMap.mp hf
  obtain ⟨co, inner⟩ := e
  match co with
  | none => simp [fetchOf] at hfe
  | some c2 =>
    by_cases hc2 : c2 = 0
    · simp [fetchOf, hc2] at hfe
    · simp only [fetchOf, if_neg hc2, Option.some.injEq] at hfe
      have : c = c2 := by rw [← hcf, ← hfe]
      rw [this]
      exact List.mem_map.mpr ⟨(some c2, inner), he, rfl⟩

theorem runFetches_keys_nodup (db : DB) :
    ∀ (cm : CtMap) (dm : DataMap) (fs : List Fetch),
      runFetches db cm = Except.ok (dm, fs) → (cm.map Prod.fst).Nodup →
      (fs.map Prod.fst).Nodup := by
  intro cm
  induction cm with
  | nil =>
    intro dm fs h _
    simp only [runFetches, Except.ok.injEq, Prod.mk.injEq] at h
    simp [← h.2]
  | cons hd tl ih =>
    obtain ⟨co, inner⟩ := hd
    intro dm fs h hnd
    simp only [List.map_cons, List.nodup_cons] at hnd
    match co with
    | none =>
      simp only [runFetches] at h
      exact ih _ _ h hnd.2
    | some c =>
      by_cases hc : c = 0
      · simp only [runFetches, if_pos hc] at h
        exact ih _ _ h hnd.2
      · simp only [runFetches, if_neg hc] at h
        cases hdb : dget? db c with
        | none => rw [hdb] at h; cases h
        | some pks =>
          rw [hdb] at h
          cases hrest : runFetches db tl with
          | error e2 => rw [hrest] at h; cases h
          | ok out =>
            obtain ⟨dm2, fs2⟩ := out
            rw [hrest] at h
            simp only [Except.ok.injEq, Prod.mk.injEq] at h
            rw [← h.2, List.map_cons, List.nodup_cons]
            refine ⟨?_, ih _ _ hrest hnd.2⟩
            intro hcmem
            exact hnd.1 (runFetches_key_mem db tl dm2 fs2 hrest c hcmem)

/-! ### Second-pass (`spliceRow`) lemmas -/

theorem spliceRow_gfks (dm : DataMap) :
    ∀ (gs : List String) (r r2 : Row), spliceRow dm gs r = Except.ok r2 →
      r2.gfks = r.gfks ∧ r2.pk = r.pk := by
  intro gs
  induction gs with
  | nil =>
    intro r r2 h
    simp only [spliceRow, Except.ok.injEq] at h
    rw [← h]
    exact ⟨rfl, rfl⟩
  | cons g0 gs ih =>
    intro r r2 h
    simp only [spliceRow] at h
    cases hfk : (r.val g0).fk with
    | none =>
      simp only [hfk] at h
      exact ih _ _ h
    | some v =>
      simp only [hfk] at h
      cases hdg : dget? dm ((r.val g0).ct, smart_unicode (some v)) with
      | none => simp only [hdg] at h; cases h
      | some o =>
        simp only [hdg] at h
        exact ih (Row.mk r.pk r.gfks (dinsert r.resolved g0 o) r.attrs) r2 h

theorem spliceRow_val (dm : DataMap) (gs : List String) (r r2 : Row)
    (h : spliceRow dm gs r = Except.ok r2) (g : String) : r2.val g = r.val g := by
  have := spliceRow_gfks dm gs r r2 h
  simp [Row.val, this.1]

theorem spliceRow_frame (dm : DataMap) :
    ∀ (gs : List String) (r r2 : Row) (g : String), spliceRow dm gs r = Except.ok r2 →
      g ∉ gs → dget? r2.resolved g = dget? r.resolved g := by
  intro gs
  induction gs with
  | nil =>
    intro r r2 g h _
    simp only [spliceRow, Except.ok.injEq] at h
    rw [← h]
  | cons g0 gs ih =>
    intro r r2 g h hg
    have hgg0 : g ≠ g0 := fun h2 => hg (h2 ▸ List.mem_cons_self _ _)
    have hgs : g ∉ gs := fun h2 => hg (List.mem_cons_of_mem _ h2)
    simp only [spliceRow] at h
    cases hfk : (r.val g0).fk with
    | none =>
      simp only [hfk] at h
      exact ih _ _ _ h hgs
    | some v =>
      simp only [hfk] at h
      cases hdg : dget? dm ((r.val g0).ct, smart_unicode (some v)) with
      | none => simp only [hdg] at h; cases h
      | some o =>
        simp only [hdg] at h
        rw [ih _ _ _ h hgs]
        simp only [dget?_dinsert, if_neg hgg0]

theorem spliceRow_resolves (dm : DataMap) :
    ∀ (gs : List String) (r r2 : Row) (g : String) (v : String),
      spliceRow dm gs r = Except.ok r2 → g ∈ gs → (r.val g).fk = some v →
      ∃ o, dget? dm ((r.val g).ct, v) = some o ∧ dget? r2.resolved g = some o := by
  intro gs
  induction gs with
  | nil =>
    intro r r2 g v _ hg
    cases hg
  | cons g0 gs ih =>
    intro r r2 g v h hg hfk
    simp only [spliceRow] at h
    by_cases hgg0 : g = g0
    · subst hgg0
      simp only [hfk] at h
      cases hdg : dget? dm ((r.val g).ct, smart_unicode (some v)) with
      | none => simp only [hdg] at h; cases h
      | some o =>
        simp only [hdg] at h
        simp only [smart_unicode] at hdg
        by_cases hgs : g ∈ gs
        · have hval : (Row.mk r.pk r.gfks (dinsert r.resolved g o) r.attrs).val g = r.val g := rfl
          obtain ⟨o2, ho2, hr2⟩ := ih _ _ _ _ h hgs (by rw [hval, hfk])
          rw [hval] at ho2
          exact ⟨o2, ho2, hr2⟩
        · refine ⟨o, hdg, ?_⟩
          rw [spliceRow_frame dm gs _ r2 g h hgs]
          simp [dget?_dinsert]
    · have hgs : g ∈ gs := (List.mem_cons.mp hg).resolve_left hgg0
      cases hfk0 : (r.val g0).fk with
      | none =>
        simp only [hfk0] at h
        exact ih _ _ _ _ h hgs hfk
      | some v0 =>
        simp only [hfk0] at h
        cases hdg : dget? dm ((r.val g0).ct, smart_unicode (some v0)) with
        | none => simp only [hdg] at h; cases h
        | some o =>
          simp only [hdg] at h
          exact ih (Row.mk r.pk r.gfks (dinsert r.resolved g0 o) r.attrs) r2 g v h hgs hfk

theorem spliceRow_err_shape (dm : DataMap) :
    ∀ (gs : List String) (r : Row) (e : FetchErr), spliceRow dm gs r = Except.error e →
      ∃ c s, e = FetchErr.dataKeyError c s := by
  intro gs
  induction gs with
  | nil =>
    intro r e h
    cases h
  | cons g0 gs ih =>
    intro r e h
    simp only [spliceRow] at h
    cases hfk : (r.val g0).fk with
    | none =>
      simp only [hfk] at h
      exact ih _ _ h
    | some v =>
      simp only [hfk] at h
      cases hdg : dget? dm ((r.val g0).ct, smart_unicode (some v)) with
      | none =>
        simp only [hdg] at h
        cases h
        exact ⟨_, _, rfl⟩
      | some o =>
        simp only [hdg] at h
        exact ih _ _ h

theorem spliceRow_error (dm : DataMap) (g : String) (v : String) :
    ∀ gs : List String, g ∈ gs → ∀ r : Row, (r.val g).fk = some v →
      dget? dm ((r.val g).ct, v) = none →
      ∃ e, spliceRow dm gs r = Except.error e := by
  intro gs
  induction gs with
  | nil =>
    intro hg
    cases hg
  | cons g0 gs ih =>
    intro hg r hfk hmiss
    simp only [spliceRow]
    by_cases hgg0 : g = g0
    · subst hgg0
      simp only [hfk, smart_unicode, hmiss]
      exact ⟨_, rfl⟩
    · have hgs : g ∈ gs := (List.mem_cons.mp hg).resolve_left hgg0
      cases hfk0 : (r.val g0).fk with
      | none =>
        simp only [hfk0]
        exact ih hgs r hfk hmiss
      | some v0 =>
        simp only [hfk0]
        cases hdg : dget? dm ((r.val g0).ct, smart_unicode (some v0)) with
        | none =>
          simp only [hdg]
          exact ⟨_, rfl⟩
        | some o =>
          simp only [hdg]
          exact ih hgs (Row.mk r.pk r.gfks (dinsert r.resolved g0 o) r.attrs) hfk hmiss

theorem spliceRows_ok (dm : DataMap) (flds : List String) :
    ∀ (rows rows2 : List Row), spliceRows dm flds rows = Except.ok rows2 →
      rows2.length = rows.length ∧
      ∀ (i : Nat) (h1 : i < rows.length) (h2 : i < rows2.length),
        spliceRow dm flds (rows.get ⟨i, h1⟩) = Except.ok (rows2.get ⟨i, h2⟩) := by
  intro rows
  induction rows with
  | nil =>
    intro rows2 h
    simp only [spliceRows, Except.ok.injEq] at h
    rw [← h]
    exact ⟨rfl, fun i h1 => absurd h1 (by simp)⟩
  | cons hd tl ih =>
    intro rows2 h
    simp only [spliceRows] at h
    cases hr : spliceRow dm flds hd with
    | error e => simp only [hr] at h; exact Except.noConfusion h
    | ok r2 =>
      simp only [hr] at h
      cases hrest : spliceRows dm flds tl with
      | error e => simp only [hrest] at h; exact Except.noConfusion h
      | ok rest2 =>
        simp only [hrest, Except.ok.injEq] at h
        subst h
        obtain ⟨hlen, hget⟩ := ih _ hrest
        constructor
        · simpa using hlen
        · intro i h1 h2
          match i with
          | 0 => simpa using hr
          | i + 1 =>
            simp only [List.get_cons_succ]
            exact hget i (by simpa using h1) (by simpa using h2)

theorem spliceRows_error (dm : DataMap) (flds : List String) :
    ∀ (rows : List Row) (r : Row), r ∈ rows →
      (∃ e0, spliceRow dm flds r = Except.error e0) →
      ∃ c s, spliceRows dm flds rows = Except.error (FetchErr.dataKeyError c s) := by
  intro rows
  induction rows with
  | nil =>
    intro r hr
    cases hr
  | cons hd tl ih =>
    intro r hr herr
    simp only [spliceRows]
    cases hhd : spliceRow dm flds hd with
    | error e =>
      obtain ⟨c, s, hcs⟩ := spliceRow_err_shape dm flds hd e hhd
      exact ⟨c, s, by rw [hcs]⟩
    | ok r2 =>
      rcases List.mem_cons.mp hr with h1 | h1
      · obtain ⟨e0, he0⟩ := herr
        rw [← h1, he0] at hhd
        cases hhd
      · obtain ⟨c, s, hrest⟩ := ih r h1 herr
        rw [hrest]
        exact ⟨c, s, rfl⟩

/-! ### `fetch_core` inversion -/

theorem fetch_core_eq (db : DB) (flds : List String) (rows : List Row) :
    fetch_core true false db flds [] rows =
      match runFetches db (buildCtMap flds rows) with
      | Except.error e => Except.error e
      | Except.ok (dm, fs) =>
        match spliceRows dm flds rows with
        | Except.error e => Except.error e
        | Except.ok rows2 => Except.ok ⟨rows2, fs, false⟩ := rfl

theorem fetch_core_inv (db : DB) (flds : List String) (rows : List Row)
    (res : FetchResult) (h : fetch_core true false db flds [] rows = Except.ok res) :
    ∃ dm, runFetches db (buildCtMap flds rows) = Except.ok (dm, res.fetches) ∧
      spliceRows dm flds rows = Except.ok res.rows ∧ res.usedPf = false := by
  rw [fetch_core_eq] at h
  cases hrf : runFetches db (buildCtMap flds rows) with
  | error e => simp only [hrf] at h; exact Except.noConfusion h
  | ok out =>
    obtain ⟨dm, fs⟩ := out
    simp only [hrf] at h
    cases hsp : spliceRows dm flds rows with
    | error e => simp only [hsp] at h; exact Except.noConfusion h
    | ok rows2 =>
      simp only [hsp, Except.ok.injEq] at h
      subst h
      refine ⟨dm, ?_, ?_, rfl⟩ <;> simp [hrf, hsp]

theorem fetch_core_err_of_splice (db : DB) (flds : List String) (rows : List Row)
    (dm : DataMap) (fs : List Fetch) (e : FetchErr)
    (hrf : runFetches db (buildCtMap flds rows) = Except.ok (dm, fs))
    (hsp : spliceRows dm flds rows = Except.error e) :
    fetch_core true false db flds [] rows = Except.error e := by
  rw [fetch_core_eq]
  simp only [hrf, hsp]

theorem _clone_eq (qs : GFKQuerySet) : qs._clone = qs := by
  obtain ⟨model, rows, batches, empty⟩ := qs
  simp only [GFKQuerySet._clone]
  by_cases h : batches.isEmpty
  · have h2 : batches = [] := by simpa [List.isEmpty_iff] using h
    simp [h, h2]
  · simp [h]

/-! ### The claims

Concrete fixtures used by witnesses and counterexamples. -/

/-- The truthy content-type tags referenced across the row set, one entry
per (row, gfk field) pair, in visit order; its distinct count is the
"number of distinct referenced type tags present in the set". -/
def presentTags (flds : List String) (rows : List Row) : List Nat :=
  (gfkPairs flds rows).filterMap (fun p =>
    match (p.1.val p.2).ct with
    | none => none
    | some c => if c = 0 then none else some c)

/-- A row whose single gfk field has content type 1 and a NULL target id. -/
def rowN : Row := { pk := 1, gfks := [("t", ⟨some 1, none⟩)] }

/-- A row whose single gfk field points at (type 1, id "99") — dangling
against a database in which type 1 only has id "10". -/
def rowD : Row := { pk := 1, gfks := [("t", ⟨some 1, some "99"⟩)] }

/-- Example rows 1 and 2 both reference (type 1, id "10"). -/
def exR1 : Row := { pk := 1, gfks := [("target", ⟨some 1, some "10"⟩)] }

/-- Second row referencing (type 1, id "10"). -/
def exR2 : Row := { pk := 2, gfks := [("target", ⟨some 1, some "10"⟩)] }

/-- Example row 3 references (type 2, id "20"). -/
def exR3 : Row := { pk := 3, gfks := [("target", ⟨some 2, some "20"⟩)] }

/-- The database backing the example: type 1 has a row "10", type 2 a
row "20". -/
def exDb : DB := [(1, ["10"]), (2, ["20"])]

/-- C1 as stated is false on the code: a reference with a null target id is
NOT skipped in the first grouping pass.  With a single row whose only gfk
field has `fk = None` (and `ct = 1`), skipping the reference entirely would
leave the grouping empty, but `ct_map` in fact records the reference under
its content-type id with the key `smart_unicode(None) = "None"`. -/
theorem claim1_counterexample :
    ¬ (buildCtMap ["t"] [rowN] = []) := by
  intro h
  have h2 : buildCtMap ["t"] [rowN] = [(some 1, [("None", ("t", 1))])] := by
    simp [buildCtMap, gfkPairs, ctMapStep, rowN, Row.val, dget?, dinsert, smart_unicode]
  rw [h2] at h
  cases h

/-- C1 (amended): a row with a null target id on a polymorphic field is
still entered into the first-pass grouping, keyed by its content-type id
with the null id rendered as the string "None"; but the second pass leaves
the resolved slot of the field unset and never attempts a result-map lookup for
it — for every result map, including the empty one, the row passes through
unchanged and without error. -/
theorem claim1_null_id_slot_unset (r : Row) (g : String)
    (hfk : (r.val g).fk = none) :
    buildCtMap [g] [r] = [((r.val g).ct, [("None", (g, r.pk))])] ∧
    ∀ dm : DataMap, spliceRow dm [g] r = Except.ok r := by
  constructor
  · simp [buildCtMap, gfkPairs, ctMapStep, dinsert, hfk, smart_unicode]
  · intro dm
    simp [spliceRow, hfk]

/-- Witness for C1 (amended) at the concrete null-id row. -/
theorem claim1_witness :
    buildCtMap ["t"] [rowN] = [((rowN.val "t").ct, [("None", ("t", rowN.pk))])] ∧
    spliceRow [] ["t"] rowN = Except.ok rowN :=
  ⟨(claim1_null_id_slot_unset rowN "t" rfl).1,
   (claim1_null_id_slot_unset rowN "t" rfl).2 []⟩

/-- C8: with the global `FETCH_RELATIONS` flag disabled,
`fetch_generic_relations` returns the rows unchanged — every resolved slot
still unset — and issues zero secondary fetches. -/
theorem claim8_fetch_disabled (u : Bool) (db : DB) (gfkFields args : List String)
    (rows : List Row) (h : ∀ r ∈ rows, r.resolved = []) :
    fetch_core false u db gfkFields args rows = Except.ok ⟨rows, [], false⟩ ∧
    ∀ res : FetchResult, fetch_core false u db gfkFields args rows = Except.ok res →
      res.fetches = [] ∧ ∀ r ∈ res.rows, ∀ g : String, dget? r.resolved g = none := by
  refine ⟨rfl, ?_⟩
  intro res hres
  have h2 : res = ⟨rows, [], false⟩ := by
    have := hres.symm.trans (rfl : fetch_core false u db gfkFields args rows =
      Except.ok ⟨rows, [], false⟩)
    exact Except.ok.inj this
  subst h2
  refine ⟨rfl, ?_⟩
  intro r hr g
  rw [h r hr]
  rfl

/-- Witness for C8 at a concrete queryset. -/
theorem claim8_witness :
    fetch_core false true exDb ["t"] [] [rowN] = Except.ok ⟨[rowN], [], false⟩ ∧
    dget? rowN.resolved "t" = none := by
  have h := claim8_fetch_disabled true exDb ["t"] [] [rowN]
    (by intro r hr; simp at hr; rw [hr]; rfl)
  exact ⟨h.1, (h.2 ⟨[rowN], [], false⟩ h.1).2 rowN (by simp) "t"⟩

theorem keys_buildCtMap_mem (flds : List String) (rows : List Row) (o : Option Nat) :
    o ∈ (buildCtMap flds rows).map Prod.fst ↔
      ∃ p ∈ gfkPairs flds rows, o = (p.1.val p.2).ct := by
  unfold buildCtMap
  rw [keys_foldl_mem]
  simp

/-- The resolved result of the example scenario: two secondary fetches,
rows 1 and 2 sharing the resolved target (1, "10"). -/
def exRes : FetchResult :=
  ⟨[{ exR1 with resolved := [("target", ⟨1, "10"⟩)] },
    { exR2 with resolved := [("target", ⟨1, "10"⟩)] },
    { exR3 with resolved := [("target", ⟨2, "20"⟩)] }],
   [(1, ["10"]), (2, ["20"])], false⟩

/-- C3: the number of secondary fetches issued by `fetch_generic_relations`
equals the number of distinct truthy referenced content-type tags present
in the row set, independent of the number of rows or references; and in the
3-row example scenario (rows 1 and 2 referencing (type 1, id "10"), row 3
referencing (type 2, id "20")) exactly 2 fetches are issued, one per type,
each covering the ids required for that type, with rows 1 and 2 sharing the
same resolved object. -/
theorem claim3_fetch_count :
    (∀ (db : DB) (flds : List String) (rows : List Row) (res : FetchResult),
      fetch_core true false db flds [] rows = Except.ok res →
      res.fetches.length = (presentTags flds rows).toFinset.card) ∧
    (fetch_core true false exDb ["target"] [] [exR1, exR2, exR3] = Except.ok exRes ∧
     exRes.fetches = [(1, ["10"]), (2, ["20"])] ∧
     exRes.rows.map (fun r => dget? r.resolved "target") =
       [some ⟨1, "10"⟩, some ⟨1, "10"⟩, some ⟨2, "20"⟩]) := by
  constructor
  · intro db flds rows res h
    obtain ⟨dm, hrf, hsp, _⟩ := fetch_core_inv db flds rows res h
    have hnodcm : ((buildCtMap flds rows).map Prod.fst).Nodup :=
      keys_foldl_nodup _ [] (by simp)
    have hfs : res.fetches = (buildCtMap flds rows).filterMap fetchOf :=
      runFetches_fetches db _ dm res.fetches hrf
    have hfnod : (res.fetches.map Prod.fst).Nodup :=
      runFetches_keys_nodup db _ dm res.fetches hrf hnodcm
    have hlen : res.fetches.length = (res.fetches.map Prod.fst).length :=
      (List.length_map _ _).symm
    have hcard : (res.fetches.map Prod.fst).toFinset.card =
        (res.fetches.map Prod.fst).length :=
      List.toFinset_card_of_nodup hfnod
    have hset : (res.fetches.map Prod.fst).toFinset =
        (presentTags flds rows).toFinset := by
      ext c
      simp only [List.mem_toFinset]
      constructor
      · intro hcmem
        rw [hfs] at hcmem
        obtain ⟨f, hf, hcf⟩ := List.mem_map.mp hcmem
        obtain ⟨e, he, hfe⟩ := List.mem_filterMap.mp hf
        obtain ⟨co, inner⟩ := e
        match co with
        | none => simp [fetchOf] at hfe
        | some c2 =>
          by_cases hc2 : c2 = 0
          · simp [fetchOf, hc2] at hfe
          · simp only [fetchOf, if_neg hc2, Option.some.injEq] at hfe
            have hcc2 : c = c2 := by rw [← hcf, ← hfe]
            subst hcc2
            have hkey : (some c : Option Nat) ∈ (buildCtMap flds rows).map Prod.fst :=
              List.mem_map.mpr ⟨(some c, inner), he, rfl⟩
            rw [keys_buildCtMap_mem] at hkey
            obtain ⟨p, hp, hpc⟩ := hkey
            refine List.mem_filterMap.mpr ⟨p, hp, ?_⟩
            simp [← hpc, hc2]
      · intro hcmem
        obtain ⟨p, hp, hpc⟩ := List.mem_filterMap.mp hcmem
        cases hct : (p.1.val p.2).ct with
        | none => simp only [hct] at hpc; exact Option.noConfusion hpc
        | some c2 =>
          simp only [hct] at hpc
          by_cases hc2 : c2 = 0
          · simp only [if_pos hc2] at hpc; exact Option.noConfusion hpc
          · simp only [if_neg hc2, Option.some.injEq] at hpc
            subst hpc
            have hkey : (some c2 : Option Nat) ∈ (buildCtMap flds rows).map Prod.fst := by
              rw [keys_buildCtMap_mem]
              exact ⟨p, hp, hct.symm⟩
            obtain ⟨e, he, hec⟩ := List.mem_map.mp hkey
            obtain ⟨co, inner⟩ := e
            rw [hfs]
            refine List.mem_map.mpr ⟨(c2, inner.map Prod.fst), ?_, rfl⟩
            refine List.mem_filterMap.mpr ⟨(co, inner), he, ?_⟩
            have hco : co = some c2 := hec
            rw [hco]
            simp [fetchOf, if_neg hc2]
    rw [hlen, ← hcard, hset]
  · exact ⟨rfl, rfl, rfl⟩

/-- Witness for the general statement of C3, applied at the example scenario. -/
theorem claim3_witness :
    exRes.fetches.length =
      (presentTags ["target"] [exR1, exR2, exR3]).toFinset.card :=
  claim3_fetch_count.1 exDb ["target"] [exR1, exR2, exR3] exRes rfl

/-- C2: when two rows of the materialized set reference the same
(content-type tag, target id) pair, both resolve to the identical target
object, the secondary fetch for that type requests that id exactly once,
and there is no duplicate fetch entry for that type. -/
theorem claim2_shared_target (db : DB) (flds : List String) (rows : List Row)
    (res : FetchResult) (i j : Nat) (hi : i < rows.length) (hj : j < rows.length)
    (g1 g2 : String) (hg1 : g1 ∈ flds) (hg2 : g2 ∈ flds) (c : Nat) (v : String)
    (hc : c ≠ 0)
    (h1 : (rows.get ⟨i, hi⟩).val g1 = ⟨some c, some v⟩)
    (h2 : (rows.get ⟨j, hj⟩).val g2 = ⟨some c, some v⟩)
    (hrun : fetch_core true false db flds [] rows = Except.ok res) :
    ∃ o : Obj, ∃ (hi2 : i < res.rows.length) (hj2 : j < res.rows.length),
      dget? (res.rows.get ⟨i, hi2⟩).resolved g1 = some o ∧
      dget? (res.rows.get ⟨j, hj2⟩).resolved g2 = some o ∧
      ∃ ks : List String, (c, ks) ∈ res.fetches ∧ ks.count v = 1 ∧
        (res.fetches.map Prod.fst).count c = 1 := by
  obtain ⟨dm, hrf, hsp, _⟩ := fetch_core_inv db flds rows res hrun
  obtain ⟨hlen, hget⟩ := spliceRows_ok dm flds rows res.rows hsp
  have hi2 : i < res.rows.length := by rw [hlen]; exact hi
  have hj2 : j < res.rows.length := by rw [hlen]; exact hj
  have hfk1 : ((rows.get ⟨i, hi⟩).val g1).fk = some v := by rw [h1]
  obtain ⟨o1, ho1, hs1⟩ :=
    spliceRow_resolves dm flds _ _ g1 v (hget i hi hi2) hg1 hfk1
  have hfk2 : ((rows.get ⟨j, hj⟩).val g2).fk = some v := by rw [h2]
  obtain ⟨o2, ho2, hs2⟩ :=
    spliceRow_resolves dm flds _ _ g2 v (hget j hj hj2) hg2 hfk2
  have hkey1 : ((rows.get ⟨i, hi⟩).val g1).ct = some c := by rw [h1]
  have hkey2 : ((rows.get ⟨j, hj⟩).val g2).ct = some c := by rw [h2]
  rw [hkey1] at ho1
  rw [hkey2] at ho2
  have ho12 : o1 = o2 := Option.some.inj (ho1.symm.trans ho2)
  have hpair : ((rows.get ⟨i, hi⟩), g1) ∈ gfkPairs flds rows :=
    (mem_gfkPairs flds rows _ g1).mpr ⟨List.get_mem _ _ _, hg1⟩
  obtain ⟨inner, hinner, hmemv⟩ := inner_of_pair (gfkPairs flds rows) [] _ g1 hpair
  rw [hkey1] at hinner
  rw [hfk1] at hmemv
  simp only [smart_unicode] at hmemv
  have hmemcm : ((some c : Option Nat), inner) ∈ buildCtMap flds rows :=
    dget?_mem _ _ _ hinner
  have hfs : res.fetches = (buildCtMap flds rows).filterMap fetchOf :=
    runFetches_fetches db _ dm res.fetches hrf
  have hfmem : (c, inner.map Prod.fst) ∈ res.fetches := by
    rw [hfs]
    exact List.mem_filterMap.mpr ⟨(some c, inner), hmemcm, by simp [fetchOf, hc]⟩
  have hinod : (inner.map Prod.fst).Nodup :=
    inner_nodup_foldl (gfkPairs flds rows) [] (by simp) (some c, inner) hmemcm
  have hfnod : (res.fetches.map Prod.fst).Nodup :=
    runFetches_keys_nodup db _ dm res.fetches hrf (keys_foldl_nodup _ [] (by simp))
  refine ⟨o1, hi2, hj2, hs1, by rw [ho12]; exact hs2, inner.map Prod.fst, hfmem,
    List.count_eq_one_of_mem hinod hmemv, ?_⟩
  exact List.count_eq_one_of_mem hfnod (List.mem_map.mpr ⟨(c, inner.map Prod.fst), hfmem, rfl⟩)

/-- Witness for C2 at the example scenario: rows 1 and 2 both reference
(type 1, id "10"). -/
theorem claim2_witness :
    ∃ o : Obj, ∃ (hi2 : 0 < exRes.rows.length) (hj2 : 1 < exRes.rows.length),
      dget? (exRes.rows.get ⟨0, hi2⟩).resolved "target" = some o ∧
      dget? (exRes.rows.get ⟨1, hj2⟩).resolved "target" = some o ∧
      ∃ ks : List String, (1, ks) ∈ exRes.fetches ∧ ks.count "10" = 1 ∧
        (exRes.fetches.map Prod.fst).count 1 = 1 :=
  claim2_shared_target exDb ["target"] [exR1, exR2, exR3] exRes 0 1
    (by decide) (by decide) "target" "target" (by decide) (by decide) 1 "10"
    (by decide) (by decide) (by decide) rfl

/-- C7: a row with a non-null (type tag, target id) reference whose target
does not exist in the database (a dangling reference) makes
`fetch_generic_relations` surface a `KeyError` from the `data_map` lookup
in the second pass, rather than silently leaving the slot unset.  The
registration hypothesis says every truthy referenced content type is a
registered `ContentType` (so the secondary fetches themselves succeed). -/
theorem claim7_dangling (db : DB) (flds : List String) (rows : List Row)
    (r : Row) (g : String) (c : Nat) (v : String)
    (hr : r ∈ rows) (hg : g ∈ flds)
    (hval : r.val g = ⟨some c, some v⟩) (hc : c ≠ 0)
    (hreg : ∀ e ∈ buildCtMap flds rows, truthy e.1 → (dget? db (e.1.getD 0)).isSome)
    (hdangling : ∀ pks, dget? db c = some pks → v ∉ pks) :
    ∃ c2 s, fetch_core true false db flds [] rows =
      Except.error (FetchErr.dataKeyError c2 s) := by
  obtain ⟨⟨dm, fs⟩, hrf⟩ := runFetches_ok db (buildCtMap flds rows) hreg
  have hmiss : dget? dm ((some c : Option Nat), v) = none := by
    cases hdm : dget? dm ((some c : Option Nat), v) with
    | none => rfl
    | some o =>
      exfalso
      have hmem := dget?_mem _ _ _ hdm
      obtain ⟨c3, pks, hkey, hdb, hpk⟩ :=
        runFetches_dm_mem db _ dm fs hrf _ hmem
      have hc3 : c3 = c := by
        have : (some c3 : Option Nat) = some c := hkey.symm ▸ rfl
        exact Option.some.inj (by simpa using hkey.symm)
      subst hc3
      exact hdangling pks hdb hpk
  have hfk : (r.val g).fk = some v := by rw [hval]
  have hmiss2 : dget? dm ((r.val g).ct, v) = none := by rw [hval]; exact hmiss
  have herr := spliceRow_error dm g v flds hg r hfk hmiss2
  obtain ⟨c2, s, hrows⟩ := spliceRows_error dm flds rows r hr herr
  exact ⟨c2, s, fetch_core_err_of_splice db flds rows dm fs _ hrf hrows⟩

/-- Witness for C7: type 1 is registered but only has the row "10"; the
single row references (type 1, id "99"). -/
theorem claim7_witness :
    ∃ c2 s, fetch_core true false [(1, ["10"])] ["t"] [] [rowD] =
      Except.error (FetchErr.dataKeyError c2 s) :=
  claim7_dangling [(1, ["10"])] ["t"] [rowD] rowD "t" 1 "99"
    (by decide) (by decide) (by decide) (by decide) (by decide)
    (by intro pks h; cases Option.some.inj h; decide)

/-- `_create_batch` only consults the model of the receiver. -/
theorem _create_batch_model (qs qs2 : GFKQuerySet) (hm : qs2.model = qs.model)
    (b : BatchOrStr) (t : Option String) :
    qs2._create_batch b t = qs._create_batch b t := by
  unfold GFKQuerySet._create_batch _check_field_exists
  rw [hm]

/-- A concrete queryset over a model with one relation "tags" and one gfk
field "t". -/
def exQs : GFKQuerySet := { model := ⟨["tags"], ["t"]⟩, rows := [rowN] }

/-- `exQs` with the batch specification for "tags" attached. -/
def qsA : GFKQuerySet :=
  { model := ⟨["tags"], ["t"]⟩, rows := [rowN], batches := [⟨"tags", "tags"⟩] }

/-- An empty (`EmptyGFKQuerySet`) queryset. -/
def exQsE : GFKQuerySet := { model := ⟨["tags"], ["t"]⟩, rows := [], empty := true }

/-- C4: attaching the same batch specification twice is idempotent — the
second attachment returns a query value equal to the first (the set-union
merge absorbs the by-value duplicate), so iteration output is unchanged. -/
theorem claim4_idempotent (qs : GFKQuerySet) (s : BatchOrStr) (qs1 qs2 : GFKQuerySet)
    (h1 : qs.batch_select [s] [] = Except.ok qs1)
    (h2 : qs1.batch_select [s] [] = Except.ok qs2) :
    qs2 = qs1 ∧ ∀ db : LinkDB, qs2.iterator db = qs1.iterator db := by
  suffices hq : qs2 = qs1 from ⟨hq, fun db => by rw [hq]⟩
  unfold GFKQuerySet.batch_select at h1 h2
  cases hcb : qs._create_batch s none with
  | error e =>
    have hcb1 : createBatches qs [s] = Except.error e := by
      simp [createBatches, hcb]
    simp only [hcb1] at h1
    exact Except.noConfusion h1
  | ok b =>
    have hcb1 : createBatches qs [s] = Except.ok [b] := by
      simp [createBatches, hcb]
    simp only [hcb1, createNamedBatches, Except.ok.injEq] at h1
    rw [_clone_eq] at h1
    have hm1 : qs1.model = qs.model := by rw [← h1]
    have hcb2 : qs1._create_batch s none = Except.ok b := by
      rw [_create_batch_model qs qs1 hm1, hcb]
    have hcb3 : createBatches qs1 [s] = Except.ok [b] := by
      simp [createBatches, hcb2]
    simp only [hcb3, createNamedBatches, Except.ok.injEq] at h2
    rw [_clone_eq] at h2
    have hbmem : b ∈ qs1.batches := by
      rw [← h1]
      show b ∈ setUnion (setUnion qs.batches [b]) []
      rw [mem_setUnion, mem_setUnion]
      simp
    have hsu : setUnion (setUnion qs1.batches [b]) [] = qs1.batches :=
      setInsert_eq_self _ _ hbmem
    rw [← h2, hsu]

/-- Witness for C4: attaching the "tags" specification to `exQs` twice
gives the same query as attaching it once. -/
theorem claim4_witness :
    qsA = qsA ∧ ∀ db : LinkDB, qsA.iterator db = qsA.iterator db :=
  claim4_idempotent exQs (BatchOrStr.str "tags") qsA qsA rfl rfl

/-- C5: `batch_select` is copy-on-configure — the receiver value is left
untouched (the embedding is a pure function of the receiver), the returned
query keeps the rows, model and emptiness of the receiver, carries exactly the
set union of the previously attached and the newly created specifications,
and `_clone` carries the attached specifications forward. -/
theorem claim5_copy_on_configure (qs : GFKQuerySet) (pos : List BatchOrStr)
    (named : List (String × BatchOrStr)) (qs2 : GFKQuerySet)
    (h : qs.batch_select pos named = Except.ok qs2) :
    qs._clone.batches = qs.batches ∧
    qs2.rows = qs.rows ∧ qs2.model = qs.model ∧ qs2.empty = qs.empty ∧
    ∃ bs nbs : List Batch,
      createBatches qs pos = Except.ok bs ∧
      createNamedBatches qs named = Except.ok nbs ∧
      ∀ b : Batch, b ∈ qs2.batches ↔ b ∈ qs.batches ∨ b ∈ bs ∨ b ∈ nbs := by
  unfold GFKQuerySet.batch_select at h
  cases hb : createBatches qs pos with
  | error e => simp only [hb] at h; exact Except.noConfusion h
  | ok bs =>
    simp only [hb] at h
    cases hnb : createNamedBatches qs named with
    | error e => simp only [hnb] at h; exact Except.noConfusion h
    | ok nbs =>
      simp only [hnb, Except.ok.injEq] at h
      rw [_clone_eq] at h
      refine ⟨by rw [_clone_eq], by rw [← h], by rw [← h], by rw [← h],
        bs, nbs, rfl, rfl, ?_⟩
      intro b
      rw [← h]
      show b ∈ setUnion (setUnion qs.batches bs) nbs ↔ _
      rw [mem_setUnion, mem_setUnion]
      tauto

/-- Witness for C5 at the concrete queryset. -/
theorem claim5_witness :
    exQs._clone.batches = exQs.batches ∧
    qsA.rows = exQs.rows ∧ qsA.model = exQs.model ∧ qsA.empty = exQs.empty ∧
    ∃ bs nbs : List Batch,
      createBatches exQs [BatchOrStr.str "tags"] = Except.ok bs ∧
      createNamedBatches exQs [] = Except.ok nbs ∧
      ∀ b : Batch, b ∈ qsA.batches ↔ b ∈ exQs.batches ∨ b ∈ bs ∨ b ∈ nbs :=
  claim5_copy_on_configure exQs [BatchOrStr.str "tags"] [] qsA rfl

/-- C6: a specification naming a relation missing from the row type fails
at attachment time with a configuration error naming the field — before
any secondary fetch can run (`batch_select` never touches the database);
naming an existing relation succeeds. -/
theorem claim6_validation (qs : GFKQuerySet) (f : String) :
    (f ∉ qs.model.relFields →
      qs.batch_select [BatchOrStr.str f] [] =
        Except.error (ConfigErr.fieldDoesNotExist f)) ∧
    (f ∈ qs.model.relFields →
      ∃ qs2, qs.batch_select [BatchOrStr.str f] [] = Except.ok qs2) := by
  constructor
  · intro h
    have hcb : qs._create_batch (BatchOrStr.str f) none =
        Except.error (ConfigErr.fieldDoesNotExist f) := by
      simp [GFKQuerySet._create_batch, Batch.ofName, _check_field_exists, h]
    simp [GFKQuerySet.batch_select, createBatches, hcb]
  · intro h
    have hcb : qs._create_batch (BatchOrStr.str f) none = Except.ok ⟨f, f⟩ := by
      simp [GFKQuerySet._create_batch, Batch.ofName, _check_field_exists, h]
    exact ⟨{ qs._clone with batches := setUnion (setUnion qs.batches [⟨f, f⟩]) [] },
      by simp [GFKQuerySet.batch_select, createBatches, createNamedBatches, hcb]⟩

/-- Witness for C6: "nope" is rejected naming the field, "tags" accepted. -/
theorem claim6_witness :
    exQs.batch_select [BatchOrStr.str "nope"] [] =
      Except.error (ConfigErr.fieldDoesNotExist "nope") ∧
    ∃ qs2, exQs.batch_select [BatchOrStr.str "tags"] [] = Except.ok qs2 :=
  ⟨(claim6_validation exQs "nope").1 (by decide),
   (claim6_validation exQs "tags").2 (by decide)⟩

/-- C9: with no batch specifications attached, `iterator` passes the
underlying results through unchanged; with specifications attached it
materializes the results once and applies the batch collection fetcher for
each specification in turn, the output of each application feeding the
next. -/
theorem claim9_iterator (db : LinkDB) (qs : GFKQuerySet) :
    (qs.batches = [] → qs.iterator db = qs.rows) ∧
    (∀ b bs, qs.batches = b :: bs →
      qs.iterator db =
        bs.foldl (fun results b2 =>
          batch_select_fn db b2.target_field_name b2.m2m_fieldname results)
          (batch_select_fn db b.target_field_name b.m2m_fieldname qs.rows)) := by
  constructor
  · intro h
    simp [GFKQuerySet.iterator, h]
  · intro b bs h
    simp [GFKQuerySet.iterator, h]

/-- Witness for C9: pass-through with no specs; one application with one
spec. -/
theorem claim9_witness :
    exQs.iterator [] = exQs.rows ∧
    qsA.iterator [] = batch_select_fn [] "tags" "tags" qsA.rows :=
  ⟨(claim9_iterator [] exQs).1 rfl,
   (claim9_iterator [] qsA).2 ⟨"tags", "tags"⟩ [] rfl⟩

/-- C10: `fetch_generic_relations` does not touch the receiver (the
embedding is a pure function of it): the returned queryset keeps the
batch specifications, model and emptiness of the receiver and only its rows are
replaced by the resolved rows; an `EmptyGFKQuerySet` receiver is returned
as-is with zero secondary fetches. -/
theorem claim10_no_mutation (fr u : Bool) (db : DB) (args : List String)
    (qs : GFKQuerySet) :
    (qs.empty = true →
      qs.fetch_generic_relations fr u db args = Except.ok (qs, [])) ∧
    (∀ qs2 fs, qs.fetch_generic_relations fr u db args = Except.ok (qs2, fs) →
      qs2.batches = qs.batches ∧ qs2.model = qs.model ∧ qs2.empty = qs.empty ∧
      (qs.empty = false → ∃ res : FetchResult,
        fetch_core fr u db qs.model.gfkFields args qs.rows = Except.ok res ∧
        qs2.rows = res.rows ∧ fs = res.fetches)) := by
  constructor
  · intro h
    simp [GFKQuerySet.fetch_generic_relations, h]
  · intro qs2 fs h
    unfold GFKQuerySet.fetch_generic_relations at h
    cases he : qs.empty with
    | true =>
      simp only [he, if_true] at h
      obtain ⟨h1, h2⟩ := Prod.mk.injEq .. ▸ Except.ok.inj h
      rw [← h1]
      exact ⟨rfl, rfl, he, fun hf => absurd hf (by simp)⟩
    | false =>
      simp only [he, if_false, _clone_eq] at h
      cases hfc : fetch_core fr u db qs.model.gfkFields args qs.rows with
      | error e => simp only [hfc] at h; exact Except.noConfusion h
      | ok res =>
        simp only [hfc] at h
        obtain ⟨h1, h2⟩ := Prod.mk.injEq .. ▸ Except.ok.inj h
        rw [← h1]
        exact ⟨rfl, rfl, rfl, fun _ => ⟨res, rfl, rfl, h2.symm⟩⟩

/-- Witness for C10: the empty queryset comes back as itself; a non-empty
queryset (with resolution disabled so the core returns immediately) keeps
its state. -/
theorem claim10_witness :
    exQsE.fetch_generic_relations true false exDb [] = Except.ok (exQsE, []) ∧
    (exQs.batches = exQs.batches ∧ exQs.model = exQs.model ∧
      exQs.empty = exQs.empty ∧
      (exQs.empty = false → ∃ res : FetchResult,
        fetch_core false false exDb exQs.model.gfkFields [] exQs.rows =
          Except.ok res ∧
        exQs.rows = res.rows ∧ ([] : List Fetch) = res.fetches)) :=
  ⟨(claim10_no_mutation true false exDb [] exQsE).1 rfl,
   (claim10_no_mutation false false exDb [] exQs).2 exQs [] rfl⟩

end ActStream
